import Mathlib

/-!
Shallow embedding of `lint_monitor/monitor.py` (the lint quality monitor).

Modelling choices:
* Python strings are embedded as `List Char` (`PyStr`), so that Python's
  `str.split`, `in`-containment and slicing become executable list functions.
* Timestamps (`datetime`) are embedded as integers counting seconds; a
  `timedelta` is an integer number of seconds.  Only comparison and
  subtraction of datetimes occur in the source, so this is faithful.
* Scores (`float`) are embedded as rationals `ℚ`.  The scores the program
  handles are finite decimal literals in [0, 10]; rationals represent those
  exactly.  Non-finite float literals (`inf`, `nan`) fall outside the score
  domain and are outside this embedding.
* Methods that read the wall clock (`datetime.now()`) receive the clock's
  value `now` as an explicit argument.
* The logging sink and display sink are modelled as event lists in the
  monitor state: an invocation of a sink appends one event.
-/

abbrev PyStr := List Char

/-- One history entry: `(timestamp, score)`, as appended by
`_process_iteration` (`self.history.append((timestamp, score))`). -/
abbrev Sample := ℤ × ℚ

/-- `self.history`: a deque of samples, front = oldest. -/
abbrev History := List Sample

/-- `TIME_WINDOWS` from `monitor.py`: named window durations in seconds
(5 minutes, 15 minutes, 1 hour, 4 hours, 16 hours). -/
def TIME_WINDOWS : List (String × ℤ) :=
  [("5m", 300), ("15m", 900), ("1h", 3600), ("4h", 14400), ("16h", 57600)]

/-- `_get_window_scores(current_time, window_delta)`:
`window_start = current_time - window_delta`, then
`[score for timestamp, score in self.history if timestamp >= window_start]`. -/
def get_window_scores (history : History) (current_time window_delta : ℤ) :
    List ℚ :=
  let window_start := current_time - window_delta
  (history.filter (fun p => window_start ≤ p.1)).map Prod.snd

/-- `_calculate_improvement_for_window(current_time, window_delta)`:
returns `None` when `not window_scores or len(window_scores) < 2`,
otherwise `window_scores[-1] - window_scores[0]`. -/
def calculate_improvement_for_window (history : History)
    (current_time window_delta : ℤ) : Option ℚ :=
  let window_scores := get_window_scores history current_time window_delta
  if window_scores = [] ∨ window_scores.length < 2 then none
  else some (window_scores.getLastD 0 - window_scores.headD 0)

/-- `calculate_improvements()`: a dict comprehension over `TIME_WINDOWS`
(Python dicts preserve insertion order, so the result is an ordered
association list).  The source reads `current_time = datetime.now()`;
here the clock value is passed explicitly. -/
def calculate_improvements (history : History) (current_time : ℤ) :
    List (String × Option ℚ) :=
  TIME_WINDOWS.map
    (fun w => (w.1, calculate_improvement_for_window history current_time w.2))

/-- `_trim_history()`: `cutoff = datetime.now() - self.TIME_WINDOWS[-1][1]`,
then pop from the left while the front timestamp is `< cutoff`.  The
`while`/`popleft` loop on a deque is exactly `dropWhile` on the front. -/
def trim_history (history : History) (now : ℤ) : History :=
  let cutoff := now - (TIME_WINDOWS.getLastD ("", 0)).2
  history.dropWhile (fun p => p.1 < cutoff)

/-! ### String machinery for `_extract_score` -/

/-- Python substring containment (`needle in hay`). -/
def containsSub (needle : PyStr) : PyStr → Bool
  | [] => needle.isPrefixOf []
  | c :: rest => needle.isPrefixOf (c :: rest) || containsSub needle rest

/-- Python `str.split(sep)` for a non-empty separator, with explicit fuel
(the fuel `s.length + 1` always suffices, since each step consumes at
least one character of `s`). -/
def splitOnFuel (sep : PyStr) : Nat → PyStr → PyStr → List PyStr
  | 0, s, acc => [acc.reverse ++ s]
  | _ + 1, [], acc => [acc.reverse]
  | fuel + 1, c :: rest, acc =>
    if sep.isPrefixOf (c :: rest) then
      acc.reverse :: splitOnFuel sep fuel ((c :: rest).drop sep.length) []
    else splitOnFuel sep fuel rest (c :: acc)

/-- Python `s.split(sep)` (non-regex, non-empty separator). -/
def splitOn (sep s : PyStr) : List PyStr :=
  splitOnFuel sep (s.length + 1) s []

/-- The characters Python's `float()` strips from both ends. -/
def isPySpace (c : Char) : Bool :=
  c = ' ' ∨ c = '\t' ∨ c = '\n' ∨ c = '\r' ∨ c = '\x0b' ∨ c = '\x0c'

/-- Strip `isPySpace` characters from both ends. -/
def stripPy (s : PyStr) : PyStr :=
  ((s.dropWhile isPySpace).reverse.dropWhile isPySpace).reverse

/-- Python numeric-literal underscore rule: every `_` must sit between
two digits. -/
def okUnderscoresAux : Option Char → PyStr → Bool
  | _, [] => true
  | prev, c :: rest =>
    if c = '_' then
      (match prev with | some p => p.isDigit | none => false) &&
      (match rest with | c2 :: _ => c2.isDigit | [] => false) &&
      okUnderscoresAux (some c) rest
    else okUnderscoresAux (some c) rest

/-- Whether all underscores in `s` are legally placed (between digits). -/
def okUnderscores (s : PyStr) : Bool := okUnderscoresAux none s

/-- Value of a digit string, most significant first. -/
def digitsToNat (ds : PyStr) : ℕ :=
  ds.foldl (fun n c => 10 * n + (c.toNat - 48)) 0

/-- Exponent suffix after the mantissa: empty, or `e`/`E`, optional sign,
then a non-empty run of digits consuming the rest of the string. -/
def parseExpPart (m : ℚ) (r : PyStr) : Option ℚ :=
  match r with
  | [] => some m
  | e :: r2 =>
    if e = 'e' ∨ e = 'E' then
      let signed : ℤ × PyStr :=
        match r2 with
        | '+' :: r3 => (1, r3)
        | '-' :: r3 => (-1, r3)
        | _ => (1, r2)
      let ds := signed.2.takeWhile Char.isDigit
      let rest := signed.2.dropWhile Char.isDigit
      if ds = [] ∨ rest ≠ [] then none
      else if 0 ≤ signed.1 then some (m * 10 ^ digitsToNat ds)
      else some (m / 10 ^ digitsToNat ds)
    else none

/-- Unsigned mantissa: `digits [. digits]` or `. digits` (at least one
digit overall), then an optional exponent part. -/
def parseMantissa (t : PyStr) : Option ℚ :=
  let intDs := t.takeWhile Char.isDigit
  let r1 := t.dropWhile Char.isDigit
  match r1 with
  | '.' :: r2 =>
    let fracDs := r2.takeWhile Char.isDigit
    let r3 := r2.dropWhile Char.isDigit
    if intDs = [] ∧ fracDs = [] then none
    else parseExpPart ((digitsToNat (intDs ++ fracDs) : ℚ) / 10 ^ fracDs.length) r3
  | _ =>
    if intDs = [] then none
    else parseExpPart (digitsToNat intDs : ℚ) r1

/-- Python `float(s)` restricted to finite decimal literals, yielding the
exact rational value: optional surrounding whitespace, underscores between
digits, optional sign, decimal mantissa, optional decimal exponent.  The
words `inf`/`infinity`/`nan` denote non-finite floats outside the score
domain and are treated as absent here. -/
def pyFloat (s0 : PyStr) : Option ℚ :=
  let s := stripPy s0
  if ¬ okUnderscores s then none
  else
    let t := s.filter (fun c => c ≠ '_')
    match t with
    | '+' :: r => parseMantissa r
    | '-' :: r => (parseMantissa r).map Neg.neg
    | _ => parseMantissa t

/-- The marker used for the containment check in `_extract_score`
(`"Your code has been rated at" not in last_line` — no trailing space). -/
def MARKER_CHECK : PyStr := "Your code has been rated at".data

/-- The marker used for the split in `_extract_score`
(`last_line.split("Your code has been rated at ")` — with trailing space). -/
def MARKER_SPLIT : PyStr := "Your code has been rated at ".data

/-- `_extract_score(last_line)`.  `last_line` may be `None` (when
`_run_pylint` failed); `if not last_line` catches both `None` and the
empty string.  `split(MARKER_SPLIT)[1]` raises `IndexError` when the
split yields fewer than two parts; that and a `float()` `ValueError`
are caught and give `None`. -/
def extract_score (last_line : Option PyStr) : Option ℚ :=
  match last_line with
  | none => none
  | some s =>
    if s = [] then none
    else if ¬ containsSub MARKER_CHECK s then none
    else
      match splitOn MARKER_SPLIT s with
      | _ :: seg :: _ => pyFloat ((splitOn ['/'] seg).headD [])
      | _ => none

/-- `_run_pylint()`: runs the external provider; a `CalledProcessError`
is caught and yields `None`, success yields the stripped stdout text.
The provider outcome is an opaque input here. -/
def run_pylint (outcome : Except Unit PyStr) : Option PyStr :=
  match outcome with
  | .ok s => some s
  | .error _ => none

/-- `get_pylint_score()`: run the provider and extract the score. -/
def get_pylint_score (outcome : Except Unit PyStr) : Option ℚ :=
  extract_score (run_pylint outcome)

/-! ### Monitor state and poll loop -/

/-- Observable monitor state: the history deque plus the events sent to
the two external sinks.  `_log_score` appends one `(timestamp, score)`
line to the log file; `_display_table` renders one
`(score, improvements, timestamp)` panel — rendering itself is external,
so a sink invocation is recorded as one list entry. -/
structure MonitorState where
  history : History
  logLines : List (ℤ × ℚ)
  displays : List (ℚ × List (String × Option ℚ) × ℤ)
  deriving Repr, DecidableEq

/-- The state of a freshly constructed monitor: empty history, no sink
invocations yet. -/
def initialState : MonitorState := ⟨[], [], []⟩

/-- `_process_iteration()`: get the score; if `None`, do nothing;
otherwise append `(timestamp, score)`, trim, compute improvements, and
dispatch to the logging sink and the display sink.  The source reads the
clock three times in one cycle (timestamp, trim cutoff, improvement
`current_time`); the cycle's clock value `now` stands for all three. -/
def process_iteration (st : MonitorState) (outcome : Except Unit PyStr)
    (now : ℤ) : MonitorState :=
  match get_pylint_score outcome with
  | none => st
  | some score =>
    let history1 := st.history ++ [(now, score)]
    let history2 := trim_history history1 now
    let improvements := calculate_improvements history2 now
    { history := history2,
      logLines := st.logLines ++ [(now, score)],
      displays := st.displays ++ [(score, improvements, now)] }

/-- Trace of one `run()` execution: the final state, how many cycles
(`_process_iteration` calls) ran, and how many fixed-interval sleeps
(`time.sleep(INTERVAL)` calls) ran. -/
structure RunTrace where
  finalState : MonitorState
  cycles : ℕ
  sleeps : ℕ
  deriving Repr, DecidableEq

/-- The body of `run()`'s `while` loop, for a finite iteration cap and no
interrupt: `remaining` counts the iterations the guard
`iteration < max_iterations` still allows (`self.running` is never set
false absent an interrupt).  Cycle `i` sees provider outcome `prov i` at
clock value `clock i`; each cycle is followed by one sleep. -/
def run_loop (prov : ℕ → Except Unit PyStr) (clock : ℕ → ℤ) :
    ℕ → ℕ → MonitorState → RunTrace
  | _, 0, st => ⟨st, 0, 0⟩
  | i, remaining + 1, st =>
    let st1 := process_iteration st (prov i) (clock i)
    let t := run_loop prov clock (i + 1) remaining st1
    ⟨t.finalState, t.cycles + 1, t.sleeps + 1⟩

/-- `run()` with a finite `max_iterations` cap and no interrupt signal:
starts at `iteration = 0` and loops until the cap is exhausted, then
exits (the stopped state). -/
def run (maxIterations : ℕ) (prov : ℕ → Except Unit PyStr)
    (clock : ℕ → ℤ) (st : MonitorState) : RunTrace :=
  run_loop prov clock 0 maxIterations st

/-! ### Theorems -/

/-- C1: for every window duration, history and time `now`, the per-window
improvement is absent when fewer than 2 scores have timestamp
`≥ now - duration`, and otherwise equals the last in-window score minus
the first in-window score, in arrival order. -/
theorem C1_window_improvement (h : History) (now d : ℤ) :
    calculate_improvement_for_window h now d =
      if ((h.filter (fun p => now - d ≤ p.1)).map Prod.snd).length < 2 then none
      else some (((h.filter (fun p => now - d ≤ p.1)).map Prod.snd).getLastD 0
                 - ((h.filter (fun p => now - d ≤ p.1)).map Prod.snd).headD 0) := by
  simp only [calculate_improvement_for_window, get_window_scores]
  by_cases hlen : ((h.filter (fun p => now - d ≤ p.1)).map Prod.snd).length < 2
  · rw [if_pos (Or.inr hlen), if_pos hlen]
  · have hcond : ¬ ((h.filter (fun p => now - d ≤ p.1)).map Prod.snd = []
        ∨ ((h.filter (fun p => now - d ≤ p.1)).map Prod.snd).length < 2) := by
      rintro (e | e)
      · rw [e] at hlen
        exact hlen (by simp)
      · exact hlen e
    rw [if_neg hcond, if_neg hlen]

/-- C6: the window score query returns exactly the ordered sub-sequence of
scores whose timestamp is `≥ now - duration` (inclusive cutoff), filtering
the full history and preserving arrival order (it is a sublist of the full
score sequence). -/
theorem C6_window_scores (h : History) (now d : ℤ) :
    get_window_scores h now d = (h.filter (fun p => now - d ≤ p.1)).map Prod.snd
    ∧ (get_window_scores h now d).Sublist (h.map Prod.snd) := by
  refine ⟨rfl, ?_⟩
  exact (List.filter_sublist h).map Prod.snd

/-- C7: with scores 7, 8, 9 recorded at t = 0 s, 300 s (5 min), 600 s
(10 min), the improvements queried at now = 600 s are 1 for the "5m"
window and 2 for "15m" and every larger window. -/
theorem C7_concrete_run :
    calculate_improvements [(0, 7), (300, 8), (600, 9)] 600 =
      [("5m", some 1), ("15m", some 2), ("1h", some 2),
       ("4h", some 2), ("16h", some 2)] := by
  simp only [calculate_improvements, calculate_improvement_for_window,
    get_window_scores, TIME_WINDOWS]
  norm_num

/-- C8: the improvement computation is a pure function of the history
snapshot and `now` (the window table is a fixed constant): two
evaluations on the unchanged history with the same `now` — i.e. on equal
inputs — yield identical results for every window. -/
theorem C8_pure (h h' : History) (now now' : ℤ)
    (hh : h = h') (hn : now = now') :
    calculate_improvements h now = calculate_improvements h' now' := by
  rw [hh, hn]

/-- C8 witness: two evaluations on the same concrete snapshot at the same
time agree. -/
theorem C8_pure_witness :
    ([(0, 7), (300, 8)] : History) = [(0, 7), (300, 8)]
    ∧ calculate_improvements [(0, 7), (300, 8)] 600 =
        calculate_improvements [(0, 7), (300, 8)] 600 :=
  ⟨rfl, C8_pure [(0, 7), (300, 8)] [(0, 7), (300, 8)] 600 600 rfl rfl⟩

/-- C10: for every history (including the empty one), the improvement
mapping has exactly the five window names as keys, in the fixed order
"5m", "15m", "1h", "4h", "16h"; every window is present, paired with its
(possibly absent) improvement; on the empty history all five values are
present with value `none`, not omitted. -/
theorem C10_keys (h : History) (now : ℤ) :
    (calculate_improvements h now).map Prod.fst = ["5m", "15m", "1h", "4h", "16h"]
    ∧ (∀ w ∈ TIME_WINDOWS,
        (w.1, calculate_improvement_for_window h now w.2) ∈ calculate_improvements h now)
    ∧ calculate_improvements [] now =
        [("5m", none), ("15m", none), ("1h", none), ("4h", none), ("16h", none)] := by
  refine ⟨rfl, ?_, rfl⟩
  intro w hw
  simp only [TIME_WINDOWS, List.mem_cons, List.not_mem_nil, or_false] at hw
  rcases hw with rfl | rfl | rfl | rfl | rfl <;>
    simp [calculate_improvements, TIME_WINDOWS]

/-- C10 witness: the second conjunct applied to the "5m" window on a
concrete history. -/
theorem C10_keys_witness :
    ("5m", (300 : ℤ)) ∈ TIME_WINDOWS
    ∧ ("5m", calculate_improvement_for_window [(0, 7)] 600 300) ∈
        calculate_improvements [(0, 7)] 600 :=
  ⟨by decide, (C10_keys [(0, 7)] 600).2.1 ("5m", 300) (by decide)⟩

/-- The retention horizon is the duration of the last configured window
(the 16h window, 57600 seconds). -/
theorem retention_horizon_eq : (TIME_WINDOWS.getLastD ("", 0)).2 = 57600 := rfl

/-- On a list whose timestamps are non-decreasing, dropping the leading
too-old entries leaves only entries at or after the cutoff. -/
theorem mem_dropWhile_lt_cutoff (cutoff : ℤ) :
    ∀ (l : History), l.Pairwise (fun a b => a.1 ≤ b.1) →
      ∀ p ∈ l.dropWhile (fun q => q.1 < cutoff), cutoff ≤ p.1 := by
  intro l
  induction l with
  | nil =>
    intro _ p hp
    simp [List.dropWhile] at hp
  | cons a t ih =>
    intro hsort p hp
    rw [List.dropWhile_cons] at hp
    by_cases ha : a.1 < cutoff
    · simp [ha] at hp
      exact ih (List.Pairwise.sublist (List.sublist_cons_self a t) hsort) p hp
    · simp [ha] at hp
      rcases hp with rfl | hpt
      · omega
      · have := (List.pairwise_cons.mp hsort).1 p hpt
        omega

/-- C3: for every history with non-decreasing timestamps, after a trim at
time `now` every retained sample has timestamp `≥ now - 57600` (the
retention horizon being the 16h last window), and the trim removed
entries only from the oldest (front) end: the result is a suffix of the
original history. -/
theorem C3_trim_retention (h : History) (now : ℤ)
    (hsort : h.Pairwise (fun a b => a.1 ≤ b.1)) :
    (∀ p ∈ trim_history h now, now - 57600 ≤ p.1)
    ∧ (trim_history h now).IsSuffix h := by
  constructor
  · intro p hp
    exact mem_dropWhile_lt_cutoff (now - 57600) h hsort p hp
  · exact List.dropWhile_suffix _

/-- C3 witness: a concrete sorted history at `now = 57900`; the sample at
t = 0 is older than the 300 s cutoff and is trimmed, the rest are
retained and in range. -/
theorem C3_trim_retention_witness :
    ([(0, 7), (300, 8), (600, 9)] : History).Pairwise (fun a b => a.1 ≤ b.1)
    ∧ ((∀ p ∈ trim_history [(0, 7), (300, 8), (600, 9)] 57900, 57900 - 57600 ≤ p.1)
       ∧ (trim_history [(0, 7), (300, 8), (600, 9)] 57900).IsSuffix
           [(0, 7), (300, 8), (600, 9)]) :=
  ⟨by decide, C3_trim_retention [(0, 7), (300, 8), (600, 9)] 57900 (by decide)⟩

/-- C2: whenever the raw output contains the marker phrase, and the text
between the split marker and the next `/` delimiter parses as a decimal
number `q`, extraction returns exactly `q`.  The split position and the
number segment are named explicitly via the split of the source line. -/
theorem C2_extract_wellformed (s seg : PyStr) (q : ℚ)
    (hmark : containsSub MARKER_CHECK s = true)
    (hsplit : (splitOn MARKER_SPLIT s)[1]? = some seg)
    (hq : pyFloat ((splitOn ['/'] seg).headD []) = some q) :
    extract_score (some s) = some q := by
  have hne : s ≠ [] := by
    intro e
    subst e
    exact absurd hmark (by decide)
  cases e : splitOn MARKER_SPLIT s with
  | nil => rw [e] at hsplit; simp at hsplit
  | cons a t =>
    cases t with
    | nil => rw [e] at hsplit; simp at hsplit
    | cons b r =>
      rw [e] at hsplit
      simp at hsplit
      subst hsplit
      simp only [extract_score]
      rw [if_neg hne, if_neg (not_not_intro hmark), e]
      exact hq

/-- C2 witness: the spec's example, `"Your code has been rated at
9.50/10"` extracts to `19/2 = 9.5`. -/
theorem C2_extract_wellformed_witness :
    containsSub MARKER_CHECK "Your code has been rated at 9.50/10".data = true
    ∧ extract_score (some "Your code has been rated at 9.50/10".data) = some (19 / 2) :=
  ⟨by decide,
   C2_extract_wellformed "Your code has been rated at 9.50/10".data
     "9.50/10".data (19 / 2) (by decide) (by decide)
     (by
       have h1 : (splitOn ['/'] ("9.50/10".data)).headD [] = "9.50".data := by decide
       rw [h1]
       simp +decide [pyFloat, stripPy, isPySpace, okUnderscores, okUnderscoresAux,
         parseMantissa, parseExpPart, digitsToNat]
       norm_num)⟩

/-- C5: extraction never yields an error (it is a total function into
`Option ℚ`), and returns `none` for: absent input (`None`), the empty
string, any string lacking the marker phrase, and any string whose
segment between the split marker and the next `/` fails to parse as a
number. -/
theorem C5_extract_absent :
    extract_score none = none
    ∧ extract_score (some []) = none
    ∧ (∀ s : PyStr, containsSub MARKER_CHECK s = false → extract_score (some s) = none)
    ∧ (∀ s seg : PyStr, (splitOn MARKER_SPLIT s)[1]? = some seg →
        pyFloat ((splitOn ['/'] seg).headD []) = none →
        extract_score (some s) = none) := by
  refine ⟨rfl, rfl, ?_, ?_⟩
  · intro s hmark
    by_cases hne : s = []
    · subst hne; rfl
    · simp [extract_score, hne, hmark]
  · intro s seg hsplit hq
    by_cases hne : s = []
    · subst hne; rfl
    · by_cases hmark : containsSub MARKER_CHECK s
      · cases e : splitOn MARKER_SPLIT s with
        | nil => rw [e] at hsplit; simp at hsplit
        | cons a t =>
          cases t with
          | nil => rw [e] at hsplit; simp at hsplit
          | cons b r =>
            rw [e] at hsplit
            simp at hsplit
            subst hsplit
            simp only [extract_score]
            rw [if_neg hne, if_neg (not_not_intro hmark), e]
            exact hq
      · simp [extract_score, hne, hmark]

/-- C5 witness: the spec's examples — a line without the marker, and a
line where the text after the marker is not a number. -/
theorem C5_extract_absent_witness :
    containsSub MARKER_CHECK "Invalid score format".data = false
    ∧ extract_score (some "Invalid score format".data) = none
    ∧ extract_score (some "Your code has been rated at x/10".data) = none :=
  ⟨by decide,
   C5_extract_absent.2.2.1 "Invalid score format".data (by decide),
   C5_extract_absent.2.2.2 "Your code has been rated at x/10".data
     "x/10".data (by decide) (by decide)⟩

/-- C4: in a poll cycle whose provider outcome yields no score (provider
failure or score-less output), the cycle leaves the history completely
unchanged and invokes neither the logging sink nor the display sink. -/
theorem C4_failed_cycle (st : MonitorState) (outcome : Except Unit PyStr)
    (now : ℤ) (h : get_pylint_score outcome = none) :
    (process_iteration st outcome now).history = st.history
    ∧ (process_iteration st outcome now).logLines = st.logLines
    ∧ (process_iteration st outcome now).displays = st.displays := by
  simp [process_iteration, h]

/-- C4 witness: a failing provider invocation (`CalledProcessError`)
leaves a concrete monitor state untouched. -/
theorem C4_failed_cycle_witness :
    get_pylint_score (Except.error ()) = none
    ∧ ((process_iteration ⟨[(0, 7)], [(0, 7)], []⟩ (Except.error ()) 300).history
         = [(0, 7)]
       ∧ (process_iteration ⟨[(0, 7)], [(0, 7)], []⟩ (Except.error ()) 300).logLines
         = [(0, 7)]
       ∧ (process_iteration ⟨[(0, 7)], [(0, 7)], []⟩ (Except.error ()) 300).displays
         = []) :=
  ⟨rfl, C4_failed_cycle ⟨[(0, 7)], [(0, 7)], []⟩ (Except.error ()) 300 rfl⟩

/-- The loop body performs exactly as many cycles and sleeps as the guard
allows, whatever the starting iteration index and state. -/
theorem run_loop_counts (prov : ℕ → Except Unit PyStr) (clock : ℕ → ℤ) :
    ∀ (remaining i : ℕ) (st : MonitorState),
      (run_loop prov clock i remaining st).cycles = remaining
      ∧ (run_loop prov clock i remaining st).sleeps = remaining := by
  intro remaining
  induction remaining with
  | zero => intro i st; exact ⟨rfl, rfl⟩
  | succ n ih =>
    intro i st
    have h := ih (i + 1) (process_iteration st (prov i) (clock i))
    simp [run_loop, h.1, h.2]

/-- C9: for every finite iteration cap `n`, the poll loop performs exactly
`n` cycles and then exits (the `run` function is total, so the stopped
state is always reached); with no stop signal, each cycle is followed by
exactly one fixed-interval sleep, so `n` sleeps occur in total. -/
theorem C9_loop_cap (n : ℕ) (prov : ℕ → Except Unit PyStr) (clock : ℕ → ℤ)
    (st : MonitorState) :
    (run n prov clock st).cycles = n ∧ (run n prov clock st).sleeps = n :=
  run_loop_counts prov clock n 0 st
